import Mathlib

/-!
# Verification of the daisy-extract core (`extract.py`)

A shallow embedding of the logic of `extract.py` (the daisy-extract
DAISY 2.02 audio-book extractor) together with proofs about its
components: the filename sanitizer, the SMIL timing-document locator
(including the natural sort it applies), the NCC metadata extractor,
the per-section audio deduplication, and the orchestrator's
directory-creation, track-numbering and playlist steps.

Strings are modelled by Lean `String` (a wrapper around `List Char`),
markup documents by the list of their `meta` elements in document
order, with each attribute that the code reads carried explicitly.
Python exceptions that the code catches are modelled with `Except`;
exceptions the code does not catch (crashes such as `NameError` and
`TypeError`) are modelled by dedicated constructors or by `Option`
`none`, as noted at each definition.
-/

namespace DaisyExtract

/-! ## Filename sanitizer (`make_safe_filename`)

Source:
```
disallowed_ascii = [chr(i) for i in range(0, 32)]
disallowed_chars = '<>:"/\\|?*^' + joined disallowed_ascii
translator = dict((ord(char), '_') for char in disallowed_chars)
safe_filename = filename.replace(': ', ' - ').translate(translator).rstrip('. ')
```
-/

/-- The disallowed character set of `make_safe_filename`: ASCII control
characters (code points 0–31) and the ten listed punctuation characters. -/
def disallowed (c : Char) : Bool :=
  decide (c.toNat < 32) || c == '<' || c == '>' || c == ':' || c == '"' ||
    c == '/' || c == '\\' || c == '|' || c == '?' || c == '*' || c == '^'

/-- Python `str.replace(': ', ' - ')`: a single left-to-right pass replacing
each non-overlapping occurrence of `": "`; the replacement text is not
rescanned. -/
def replace_colon_space : List Char → List Char
  | [] => []
  | [c] => [c]
  | c :: d :: rest =>
    if c = ':' ∧ d = ' ' then ' ' :: '-' :: ' ' :: replace_colon_space rest
    else c :: replace_colon_space (d :: rest)

/-- Python `str.translate(translator)`: each disallowed character becomes
an underscore. -/
def translate_disallowed (l : List Char) : List Char :=
  l.map (fun c => if disallowed c then '_' else c)

/-- A character stripped from the right end by `rstrip('. ')`. -/
def strip_char (c : Char) : Bool :=
  c == '.' || c == ' '

/-- Python `str.rstrip('. ')`: remove trailing periods and spaces. -/
def rstrip_dot_space (l : List Char) : List Char :=
  (l.reverse.dropWhile strip_char).reverse

/-- The function `make_safe_filename` from the source: replace `": "` with `" - "`,
replace each disallowed character with `_`, strip trailing `.` and space. -/
def make_safe_filename (s : String) : String :=
  String.mk (rstrip_dot_space (translate_disallowed (replace_colon_space s.data)))

theorem replace_colon_space_of_no_colon :
    ∀ l : List Char, ':' ∉ l → replace_colon_space l = l := by
  intro l
  induction l using replace_colon_space.induct with
  | case1 => intro _; rfl
  | case2 c => intro _; rfl
  | case3 c d rest h ih =>
    intro hm
    exact absurd (h.1 ▸ List.mem_cons_self _ _) hm
  | case4 c d rest h ih =>
    intro hm
    have hd : ':' ∉ d :: rest := fun hx => hm (List.mem_cons_of_mem _ hx)
    simp only [replace_colon_space, if_neg h]
    rw [ih hd]

theorem mem_translate_disallowed {c : Char} {l : List Char}
    (h : c ∈ translate_disallowed l) : disallowed c = false := by
  rcases List.mem_map.mp h with ⟨a, _, ha⟩
  by_cases hda : disallowed a
  · simp only [translate_disallowed, hda, if_true] at ha
    subst ha; rfl
  · simp only [translate_disallowed, hda, if_false] at ha
    subst ha
    exact Bool.not_eq_true _ ▸ (by simpa using hda)

theorem mem_rstrip_dot_space {c : Char} {l : List Char}
    (h : c ∈ rstrip_dot_space l) : c ∈ l := by
  unfold rstrip_dot_space at h
  have h1 : c ∈ l.reverse.dropWhile strip_char := List.mem_reverse.mp h
  exact List.mem_reverse.mp ((List.dropWhile_sublist _).mem h1)

theorem translate_disallowed_of_clean {l : List Char}
    (h : ∀ c ∈ l, disallowed c = false) : translate_disallowed l = l := by
  unfold translate_disallowed
  conv_rhs => rw [← List.map_id l]
  refine List.map_congr_left ?_
  intro a ha
  simp [h a ha]

theorem dropWhile_idem (p : Char → Bool) (l : List Char) :
    (l.dropWhile p).dropWhile p = l.dropWhile p := by
  induction l with
  | nil => rfl
  | cons a l ih =>
    by_cases h : p a
    · simpa [List.dropWhile_cons, h] using ih
    · simp [List.dropWhile_cons, h]

theorem rstrip_dot_space_idem (l : List Char) :
    rstrip_dot_space (rstrip_dot_space l) = rstrip_dot_space l := by
  unfold rstrip_dot_space
  rw [List.reverse_reverse, dropWhile_idem]

/-- C6: The filename sanitizer is idempotent: for every input string,
sanitizing twice gives the same result as sanitizing once (after one pass no
disallowed character — in particular no colon — remains, and no trailing
period or space remains, so the second pass changes nothing). -/
theorem claim_C6_sanitize_idempotent (s : String) :
    make_safe_filename (make_safe_filename s) = make_safe_filename s := by
  unfold make_safe_filename
  set m : List Char := rstrip_dot_space (translate_disallowed (replace_colon_space s.data)) with hm
  have hclean : ∀ c ∈ m, disallowed c = false := by
    intro c hc
    exact mem_translate_disallowed (mem_rstrip_dot_space hc)
  have hdata : (String.mk m).data = m := rfl
  rw [hdata]
  have hnc : ':' ∉ m := by
    intro hcm
    have := hclean ':' hcm
    simp [disallowed] at this
  rw [replace_colon_space_of_no_colon m hnc, translate_disallowed_of_clean hclean, hm,
    rstrip_dot_space_idem]

/-! ## Section parser: audio reference deduplication
(`get_audio_filenames_from_smil`)

Source:
```
audio_files = [audio.attrs.get('src') for audio in smil.find_all('audio')]
unique_audio_files = []
for file in audio_files:
    if file not in unique_audio_files:
        unique_audio_files.append(file)
return tuple(unique_audio_files)
```
An `<audio>` element is modelled by its optional `src` attribute
(`attrs.get('src')` yields `None`, i.e. `none`, when absent). -/

/-- The accumulator loop of `get_audio_filenames_from_smil`. -/
def unique_append {α : Type} [DecidableEq α] (acc : List α) : List α → List α
  | [] => acc
  | f :: rest =>
    if f ∈ acc then unique_append acc rest else unique_append (acc ++ [f]) rest

/-- The function `get_audio_filenames_from_smil`, applied to the document-order list of
`src` attributes of the `<audio>` elements of a parsed SMIL document. -/
def get_audio_filenames_from_smil (srcs : List (Option String)) :
    List (Option String) :=
  unique_append [] srcs

/-- First-occurrence deduplication, written the way the spec describes it:
keep each value where it first appears, drop every later duplicate. -/
def dedup_keep_first {α : Type} [DecidableEq α] : List α → List α
  | [] => []
  | a :: l => a :: dedup_keep_first (l.filter (fun x => decide (x ≠ a)))
  termination_by l => l.length
  decreasing_by
    simpa using Nat.lt_succ_of_le (List.length_filter_le _ _)

theorem dedup_keep_first_nil {α : Type} [DecidableEq α] :
    dedup_keep_first ([] : List α) = [] := by
  unfold dedup_keep_first; rfl

theorem dedup_keep_first_cons {α : Type} [DecidableEq α] (a : α) (l : List α) :
    dedup_keep_first (a :: l) = a :: dedup_keep_first (l.filter (fun x => decide (x ≠ a))) := by
  rw [dedup_keep_first]

theorem unique_append_eq {α : Type} [DecidableEq α] (l : List α) :
    ∀ acc : List α,
      unique_append acc l = acc ++ dedup_keep_first (l.filter (fun x => decide (x ∉ acc))) := by
  induction l with
  | nil =>
    intro acc
    rw [unique_append, List.filter_nil, dedup_keep_first_nil, List.append_nil]
  | cons f rest ih =>
    intro acc
    by_cases hf : f ∈ acc
    · rw [unique_append, if_pos hf, ih acc]
      simp [List.filter_cons, hf]
    · rw [unique_append, if_neg hf, ih (acc ++ [f])]
      have hsplit : rest.filter (fun x => decide (x ∉ acc ++ [f]))
          = (rest.filter (fun x => decide (x ∉ acc))).filter (fun x => decide (x ≠ f)) := by
        rw [List.filter_filter]
        refine List.filter_congr ?_
        intro x _
        by_cases h1 : x = f
        · subst h1; simp
        · by_cases h2 : x ∈ acc <;> simp [h1, h2]
      rw [List.filter_cons, if_pos (by simpa using hf), dedup_keep_first_cons, hsplit]
      simp

theorem mem_dedup_keep_first {α : Type} [DecidableEq α] :
    ∀ (l : List α) (x : α), x ∈ dedup_keep_first l ↔ x ∈ l := by
  intro l
  induction l using dedup_keep_first.induct with
  | case1 => intro x; rw [dedup_keep_first_nil]
  | case2 a l ih =>
    intro x
    rw [dedup_keep_first_cons]
    constructor
    · intro hx
      rcases List.mem_cons.mp hx with h | h
      · exact h ▸ List.mem_cons_self _ _
      · exact List.mem_cons_of_mem _ (List.mem_of_mem_filter ((ih x).mp h))
    · intro hx
      rcases List.mem_cons.mp hx with h | h
      · exact h ▸ List.mem_cons_self _ _
      · by_cases hxa : x = a
        · exact hxa ▸ List.mem_cons_self _ _
        · exact List.mem_cons_of_mem _
            ((ih x).mpr (List.mem_filter.mpr ⟨h, by simpa using hxa⟩))

theorem nodup_dedup_keep_first {α : Type} [DecidableEq α] :
    ∀ l : List α, (dedup_keep_first l).Nodup := by
  intro l
  induction l using dedup_keep_first.induct with
  | case1 => rw [dedup_keep_first_nil]; exact List.nodup_nil
  | case2 a l ih =>
    rw [dedup_keep_first_cons]
    refine List.nodup_cons.mpr ⟨?_, ih⟩
    intro hmem
    have hmf := (mem_dedup_keep_first _ a).mp hmem
    have := List.of_mem_filter hmf
    simp at this

theorem get_audio_eq_dedup (srcs : List (Option String)) :
    get_audio_filenames_from_smil srcs = dedup_keep_first srcs := by
  unfold get_audio_filenames_from_smil
  rw [unique_append_eq]
  simp

/-- C7: The section's audio-reference list is the document-order list of
`src` attributes with duplicates removed keeping the first occurrence —
it equals the first-occurrence deduplication of its input, has no
duplicates, and contains exactly the values that occur in the input. -/
theorem claim_C7_dedup_first_occurrence (srcs : List (Option String)) :
    get_audio_filenames_from_smil srcs = dedup_keep_first srcs ∧
    (get_audio_filenames_from_smil srcs).Nodup ∧
    (∀ x, x ∈ get_audio_filenames_from_smil srcs ↔ x ∈ srcs) := by
  have heq := get_audio_eq_dedup srcs
  refine ⟨heq, heq ▸ nodup_dedup_keep_first srcs, ?_⟩
  intro x
  rw [heq]
  exact mem_dedup_keep_first srcs x

/-! ## Natural sort (the `natsorted` call in `find_smil_documents`)

`natsorted` with its default algorithm splits each string into maximal
runs of digits and non-digits, reads digit runs as (unsigned) numbers,
prepends an empty string chunk when the key would start with a number
(so that corresponding positions of two keys always hold values of the
same kind), and sorts lexicographically by these keys, comparing string
chunks by code point — the default is case-sensitive — and numeric
chunks as numbers. Python's sort is stable; for a total preorder every
stable sort produces the same output, so a stable insertion sort models
it exactly. -/

/-- Value of a run of ASCII digits, most significant first. -/
def digits_to_nat (run : List Char) : Nat :=
  run.foldl (fun acc c => acc * 10 + (c.toNat - 48)) 0

/-- Maximal runs of consecutive characters agreeing on `Char.isDigit`. -/
def char_runs : List Char → List (List Char)
  | [] => []
  | c :: rest =>
    match char_runs rest with
    | [] => [[c]]
    | (d :: ds) :: groups =>
      if c.isDigit == d.isDigit then (c :: d :: ds) :: groups
      else [c] :: (d :: ds) :: groups
    | [] :: groups => [c] :: groups

/-- One chunk of a natural-sort key: a string of non-digits or a number. -/
inductive NatKeyElem : Type
  | strElem (s : String)
  | numElem (n : Nat)
deriving DecidableEq, Repr

/-- Interpret one run: a digit run becomes its numeric value, any other
run stays a string. -/
def run_to_elem (run : List Char) : NatKeyElem :=
  match run with
  | [] => .strElem ""
  | c :: _ => if c.isDigit then .numElem (digits_to_nat run) else .strElem (String.mk run)

/-- The natural-sort key of a string: its runs, with an empty string chunk
prepended when the first run is numeric. -/
def natkey (s : String) : List NatKeyElem :=
  match (char_runs s.data).map run_to_elem with
  | .numElem n :: toks => .strElem "" :: .numElem n :: toks
  | toks => toks

/-- Lexicographic comparison of character lists by code point: Python's
ordering on strings. -/
def chars_le : List Char → List Char → Bool
  | [], _ => true
  | _ :: _, [] => false
  | a :: as, b :: bs => if a = b then chars_le as bs else decide (a < b)

/-- Ordering of key chunks: strings by code point, numbers by value; a
string chunk sorts before a number chunk (the mixed cases never arise
between two well-formed keys, which alternate kinds in step). -/
def elem_le (a b : NatKeyElem) : Bool :=
  match a, b with
  | .strElem x, .strElem y => chars_le x.data y.data
  | .numElem x, .numElem y => decide (x ≤ y)
  | .strElem _, .numElem _ => true
  | .numElem _, .strElem _ => false

/-- Lexicographic comparison of natural-sort keys. -/
def key_le : List NatKeyElem → List NatKeyElem → Bool
  | [], _ => true
  | _ :: _, [] => false
  | a :: as, b :: bs => if a = b then key_le as bs else elem_le a b

/-- The natural-sort comparison used on timing-document names. -/
def nat_le (a b : String) : Bool :=
  key_le (natkey a) (natkey b)

/-- The library call `natsorted` with its default algorithm, modelled by a stable insertion
sort under `nat_le`. -/
def natsorted (l : List String) : List String :=
  List.insertionSort (fun a b => nat_le a b = true) l

theorem chars_le_total : ∀ x y : List Char, chars_le x y = true ∨ chars_le y x = true := by
  intro x
  induction x with
  | nil => intro y; left; rfl
  | cons a as ih =>
    intro y
    cases y with
    | nil => right; rfl
    | cons b bs =>
      by_cases hab : a = b
      · subst hab
        simpa [chars_le] using ih bs
      · have hba : b ≠ a := fun h => hab h.symm
        simp only [chars_le, if_neg hab, if_neg hba, decide_eq_true_eq]
        exact lt_or_gt_of_ne hab

theorem chars_le_trans : ∀ {x y z : List Char},
    chars_le x y = true → chars_le y z = true → chars_le x z = true := by
  intro x
  induction x with
  | nil => intro y z _ _; rfl
  | cons a as ih =>
    intro y z h1 h2
    cases y with
    | nil => simp [chars_le] at h1
    | cons b bs =>
      cases z with
      | nil => simp [chars_le] at h2
      | cons c cs =>
        by_cases hab : a = b
        · subst hab
          by_cases hac : a = c
          · subst hac
            simp only [chars_le, if_pos rfl] at h1 h2 ⊢
            exact ih h1 h2
          · simp only [chars_le, if_pos rfl] at h1
            simpa [chars_le, hac] using (by simpa [chars_le, hac] using h2)
        · by_cases hbc : b = c
          · subst hbc
            simpa [chars_le, hab] using (by simpa [chars_le, hab] using h1)
          · have e1 : a < b := by simpa [chars_le, hab] using h1
            have e2 : b < c := by simpa [chars_le, hbc] using h2
            have hac : a ≠ c := by
              intro h
              subst h
              exact absurd e2 (not_lt_of_lt e1)
            simp only [chars_le, if_neg hac, decide_eq_true_eq]
            exact lt_trans e1 e2

theorem chars_le_antisymm : ∀ {x y : List Char},
    chars_le x y = true → chars_le y x = true → x = y := by
  intro x
  induction x with
  | nil =>
    intro y _ h2
    cases y with
    | nil => rfl
    | cons b bs => simp [chars_le] at h2
  | cons a as ih =>
    intro y h1 h2
    cases y with
    | nil => simp [chars_le] at h1
    | cons b bs =>
      by_cases hab : a = b
      · subst hab
        simp only [chars_le, if_pos rfl] at h1 h2
        exact congrArg _ (ih h1 h2)
      · have hba : b ≠ a := fun h => hab h.symm
        have e1 : a < b := by simpa [chars_le, hab] using h1
        have e2 : b < a := by simpa [chars_le, hba] using h2
        exact absurd e2 (not_lt_of_lt e1)

theorem elem_le_total (a b : NatKeyElem) : elem_le a b = true ∨ elem_le b a = true := by
  cases a <;> cases b <;> simp only [elem_le, decide_eq_true_eq]
  · exact chars_le_total _ _
  · left; trivial
  · right; trivial
  · exact Nat.le_total _ _

theorem elem_le_trans {a b c : NatKeyElem} (h1 : elem_le a b = true)
    (h2 : elem_le b c = true) : elem_le a c = true := by
  cases a <;> cases b <;> cases c <;>
    simp only [elem_le, decide_eq_true_eq] at h1 h2 ⊢ <;>
    first
      | trivial
      | exact chars_le_trans h1 h2
      | exact Nat.le_trans h1 h2

theorem elem_le_antisymm {a b : NatKeyElem} (h1 : elem_le a b = true)
    (h2 : elem_le b a = true) : a = b := by
  cases a <;> cases b <;> simp only [elem_le, decide_eq_true_eq] at h1 h2 <;>
    first
      | exact congrArg _ (String.toList_inj.mp (chars_le_antisymm h1 h2))
      | exact congrArg _ (Nat.le_antisymm h1 h2)
      | trivial

theorem key_le_total : ∀ x y : List NatKeyElem, key_le x y = true ∨ key_le y x = true := by
  intro x
  induction x with
  | nil => intro y; left; rfl
  | cons a as ih =>
    intro y
    cases y with
    | nil => right; rfl
    | cons b bs =>
      by_cases hab : a = b
      · subst hab
        simpa [key_le] using ih bs
      · have hba : b ≠ a := fun h => hab h.symm
        simpa [key_le, hab, hba] using elem_le_total a b

theorem key_le_trans : ∀ {x y z : List NatKeyElem},
    key_le x y = true → key_le y z = true → key_le x z = true := by
  intro x
  induction x with
  | nil => intro y z _ _; rfl
  | cons a as ih =>
    intro y z h1 h2
    cases y with
    | nil => simp [key_le] at h1
    | cons b bs =>
      cases z with
      | nil => simp [key_le] at h2
      | cons c cs =>
        by_cases hab : a = b
        · subst hab
          by_cases hac : a = c
          · subst hac
            simp only [key_le, if_pos rfl] at h1 h2 ⊢
            exact ih h1 h2
          · simp only [key_le, if_pos rfl] at h1
            simpa [key_le, hac] using (by simpa [key_le, hac] using h2)
        · by_cases hbc : b = c
          · subst hbc
            simpa [key_le, hab] using (by simpa [key_le, hab] using h1)
          · have e1 : elem_le a b = true := by simpa [key_le, hab] using h1
            have e2 : elem_le b c = true := by simpa [key_le, hbc] using h2
            have hac : a ≠ c := by
              intro h
              subst h
              exact hab (elem_le_antisymm e1 e2)
            simpa [key_le, hac] using elem_le_trans e1 e2

instance natLeIsTotal : IsTotal String (fun a b => nat_le a b = true) :=
  ⟨fun a b => key_le_total (natkey a) (natkey b)⟩

instance natLeIsTrans : IsTrans String (fun a b => nat_le a b = true) :=
  ⟨fun _ _ _ h1 h2 => key_le_trans h1 h2⟩

/-! ## Timing-document discovery (`find_smil_documents`)

Source:
```
SMIL_GLOB = '*.[sS][mM][iI][lL]'
documents = list(filter(lambda smil: not smil.upper().endswith(MASTER_SMIL_FILENAME),
                        glob.iglob(os.path.join(directory, SMIL_GLOB))))
if documents: return natsorted(documents)
else: raise InvalidDAISYBookError('No SMIL documents found')
```
The directory is modelled by the list of its file names in the order the
glob enumerates them; the joined directory prefix is common to all
candidates, ends with the path separator (a non-digit), and therefore
changes neither the `endswith` test nor the relative natural order, so
the model works on the bare names. -/

/-- Whether a file name matches the glob `*.[sS][mM][iI][lL]`: anything
followed by a literal dot and the four extension letters in any case. -/
def matches_smil_glob (name : String) : Bool :=
  match name.data.reverse with
  | l :: i :: m :: s :: '.' :: _ =>
    (s == 's' || s == 'S') && (m == 'm' || m == 'M') &&
      (i == 'i' || i == 'I') && (l == 'l' || l == 'L')
  | _ => false

/-- Python `str.upper()` restricted to ASCII, which is all the code
compares. -/
def str_upper (s : String) : String :=
  String.mk (s.data.map Char.toUpper)

/-- The master-file test of `find_smil_documents`:
`smil.upper().endswith('MASTER.SMIL')`. -/
def is_master_smil (name : String) : Bool :=
  "MASTER.SMIL".data.isSuffixOf (str_upper name).data

/-- The function `find_smil_documents`: keep the glob matches that do not end (after
uppercasing) in `MASTER.SMIL`; raise `InvalidDAISYBookError` when none
remain, otherwise return them naturally sorted. -/
def find_smil_documents (listing : List String) : Except String (List String) :=
  let documents := listing.filter (fun name => matches_smil_glob name && !is_master_smil name)
  if documents.isEmpty then Except.error "No SMIL documents found"
  else Except.ok (natsorted documents)

/-- C4 counterexample: the ordering is not case-insensitive. `"a.smil"` and
`"A.smil"` differ only in letter case, yet they do not compare equal for
ordering purposes: the comparison prefers `"A.smil"` strictly (uppercase
code points sort first), and the sort — which is stable, so equal-comparing
names would keep their input order — swaps them. -/
theorem claim_C4_counterexample :
    nat_le "A.smil" "a.smil" = true ∧ nat_le "a.smil" "A.smil" = false ∧
    natsorted ["a.smil", "A.smil"] = ["A.smil", "a.smil"] :=
  ⟨rfl, rfl, rfl⟩

/-- C4 (amended): the timing-document list handed to the orchestrator is
totally ordered by natural sort of filename, ascending and numeric-aware —
embedded digit runs compare as numbers, so `"2.smil"` sorts before
`"10.smil"` — but case-SENSITIVELY: letters compare by code point, so names
differing only in letter case do not compare equal. The output is sorted
under the natural-sort comparison and is a permutation of the input. -/
theorem claim_C4_natural_sort (l : List String) :
    List.Pairwise (fun a b => nat_le a b = true) (natsorted l) ∧
    (natsorted l).Perm l ∧
    natsorted ["2.smil", "10.smil", "1.smil"] = ["1.smil", "2.smil", "10.smil"] :=
  ⟨List.sorted_insertionSort _ l, List.perm_insertionSort _ l, rfl⟩

/-- C2 counterexample: `"remaster.smil"` matches the glob and its name is
not equal, case-insensitively, to `MASTER.SMIL` (its uppercased form is
`REMASTER.SMIL`), so the claim says it is included; the code's suffix test
`upper(name).endswith('MASTER.SMIL')` excludes it, and with it as the only
candidate the discovery even fails with `InvalidDAISYBookError`. -/
theorem claim_C2_counterexample :
    matches_smil_glob "remaster.smil" = true ∧
    str_upper "remaster.smil" ≠ str_upper "MASTER.SMIL" ∧
    find_smil_documents ["remaster.smil"] = Except.error "No SMIL documents found" :=
  ⟨rfl, by decide, rfl⟩

/-- C2 (amended): discovery returns exactly the files whose extension is any
case combination of `.smil`, excluding those whose name, uppercased, ENDS
WITH `MASTER.SMIL` (a case-insensitive suffix match, not an equality test),
and fails with `InvalidDAISYBookError` exactly when zero files remain after
the exclusion. -/
theorem claim_C2_smil_discovery (listing docs : List String) (name : String) :
    (find_smil_documents listing = Except.error "No SMIL documents found" ↔
      ∀ n ∈ listing, ¬(matches_smil_glob n = true ∧ is_master_smil n = false)) ∧
    (find_smil_documents listing = Except.ok docs →
      (name ∈ docs ↔
        name ∈ listing ∧ matches_smil_glob name = true ∧ is_master_smil name = false)) := by
  unfold find_smil_documents
  by_cases h : (listing.filter (fun n => matches_smil_glob n && !is_master_smil n)).isEmpty
  · rw [if_pos h]
    have hnil := List.isEmpty_iff.mp h
    constructor
    · simp only [true_iff]
      intro n hn hcontra
      have : n ∈ listing.filter (fun n => matches_smil_glob n && !is_master_smil n) :=
        List.mem_filter.mpr ⟨hn, by simp [hcontra.1, hcontra.2]⟩
      rw [hnil] at this
      exact List.not_mem_nil n this
    · intro hcontra
      exact absurd hcontra (by simp)
  · rw [if_neg h]
    constructor
    · constructor
      · intro hcontra
        exact absurd hcontra (by simp)
      · intro hall
        rcases List.exists_mem_of_ne_nil _ (fun e => h (List.isEmpty_iff.mpr e)) with ⟨n, hn⟩
        have hmem := List.mem_filter.mp hn
        have := hall n hmem.1
        simp only [Bool.and_eq_true, Bool.not_eq_true'] at hmem
        exact absurd ⟨hmem.2.1, hmem.2.2⟩ this
    · intro hok
      have hdocs : docs =
          natsorted (listing.filter (fun n => matches_smil_glob n && !is_master_smil n)) := by
        injection hok with h'
        exact h'.symm
      subst hdocs
      rw [natsorted, List.mem_insertionSort, List.mem_filter]
      simp

theorem claim_C2_smil_discovery_witness :
    "01.smil" ∈ (["01.smil"] : List String) ↔
      "01.smil" ∈ (["01.smil", "master.smil"] : List String) ∧
        matches_smil_glob "01.smil" = true ∧ is_master_smil "01.smil" = false :=
  (claim_C2_smil_discovery ["01.smil", "master.smil"] ["01.smil"] "01.smil").2 (by rfl)

/-! ## Output-directory creation (the `os.makedirs` step of `main`)

Source:
```
try:
    os.makedirs(output_directory)
    logger.debug(...)
except (FileExistsError, PermissionError):
    pass
```
The filesystem's answer to the `makedirs` call is modelled by
`Option OsError` (`none` = the call succeeded); the handler decides
whether the run continues (`Except.ok`) or the exception propagates
out of `main` (`Except.error`). -/

/-- The exceptions `os.makedirs` can raise, as the handler distinguishes
them. -/
inductive OsError : Type
  | fileExistsError
  | permissionError
  | otherError (kind : String)
deriving DecidableEq, Repr

/-- The try/except around `os.makedirs`: `FileExistsError` and
`PermissionError` are caught and silently ignored; any other exception
propagates. -/
def makedirs_step (result : Option OsError) : Except OsError Unit :=
  match result with
  | none => Except.ok ()
  | some OsError.fileExistsError => Except.ok ()
  | some OsError.permissionError => Except.ok ()
  | some e => Except.error e

/-- C1 counterexample: a permission-denied failure of the directory-creation
step is NOT fatal — the except clause catches `PermissionError` together
with `FileExistsError` and swallows both, so the run continues, contradicting
the claim that every failure other than directory-already-exists terminates
the run. -/
theorem claim_C1_counterexample :
    makedirs_step (some OsError.permissionError) = Except.ok () :=
  rfl

/-- C1 (amended): during output-directory creation, BOTH a
directory-already-exists condition AND a permission-denied condition are
silently swallowed; the step succeeds exactly on success, `FileExistsError`
or `PermissionError`, and any other directory-creation failure propagates
out of the step unhandled. -/
theorem claim_C1_makedirs (result : Option OsError) (kind : String) :
    (makedirs_step result = Except.ok () ↔
      result = none ∨ result = some OsError.fileExistsError ∨
        result = some OsError.permissionError) ∧
    makedirs_step (some (OsError.otherError kind)) = Except.error (OsError.otherError kind) := by
  constructor
  · cases result with
    | none => simp [makedirs_step]
    | some e => cases e <;> simp [makedirs_step]
  · rfl

/-! ## Metadata extraction (`create_metadata_object_from_ncc`) and SMIL
section titles (`find_document_title`)

A parsed document is modelled by its `<meta>` elements in document order;
each carries the value of its `name` attribute and its optional `content`
attribute (`attrs.get('content')` is `None`, i.e. `none`, when absent).
`html.parser`-based `BeautifulSoup` parsing itself never raises on any
byte sequence, so "document unparsable" has no representable failing case
at this level. -/

/-- A `<meta>` element: its `name` attribute value and optional `content`
attribute. -/
structure MetaTag : Type where
  name : String
  content : Option String
deriving DecidableEq, Repr

/-- The result of `create_metadata_object_from_ncc`: a raised
`ExtractMetadataError` (caught by `main` and reported), an uncaught
`TypeError` crash (from joining a `None` author content), or a
`BookMetadata` value `(authors, title)`. -/
inductive NccResult : Type
  | metaErr (msg : String)
  | typeError
  | ok (authors title : String)
deriving DecidableEq, Repr

/-- The function `create_metadata_object_from_ncc`: first `dc:title` meta's content is
the title (`None` or empty content is "blank" — but a whitespace-only
content is truthy in Python and accepted); all `dc:creator` metas' contents,
in document order, joined with `", "`, are the authors; a creator meta
without a `content` attribute makes `', '.join` receive `None` and raise
`TypeError`. -/
def create_metadata_object_from_ncc (ncc : List MetaTag) : NccResult :=
  match ncc.find? (fun m => m.name == "dc:title") with
  | none => NccResult.metaErr "The title of the DAISY book could not be found"
  | some title_tag =>
    match title_tag.content with
    | none => NccResult.metaErr "The title of the DAISY book is blank"
    | some title =>
      if title = "" then NccResult.metaErr "The title of the DAISY book is blank"
      else if (ncc.filter (fun m => m.name == "dc:creator")).isEmpty then
        NccResult.metaErr "No authors are listed in the DAISY book"
      else if (ncc.filter (fun m => m.name == "dc:creator")).any
          (fun m => m.content.isNone) then NccResult.typeError
      else NccResult.ok (String.intercalate ", "
        ((ncc.filter (fun m => m.name == "dc:creator")).filterMap (fun m => m.content))) title

/-- The title the code reads: the first `dc:title` meta's `content`. -/
def ncc_title (ncc : List MetaTag) : Option String :=
  (ncc.find? (fun m => m.name == "dc:title")).bind (fun m => m.content)

/-- The author contents the code reads: every `dc:creator` meta's
`content`, in document order. -/
def ncc_creators (ncc : List MetaTag) : List (Option String) :=
  (ncc.filter (fun m => m.name == "dc:creator")).map (fun m => m.content)

/-- C5 counterexample: a whitespace-only (blank but non-empty) `dc:title`
content does NOT fail — Python's `if not title` sees `" "` as truthy — so
extraction succeeds with the blank title, contradicting the claim that a
blank title content raises `MetadataMissing`. -/
theorem claim_C5_counterexample :
    create_metadata_object_from_ncc
        [⟨"dc:title", some " "⟩, ⟨"dc:creator", some "Jane Doe"⟩] =
      NccResult.ok "Jane Doe" " " :=
  rfl

/-- C5 (amended): metadata extraction raises `ExtractMetadataError` exactly
when the first `dc:title` meta is absent, its `content` attribute is absent,
its content is the empty string (whitespace-only content is accepted), or no
`dc:creator` metas are present; when additionally every `dc:creator` meta
carries a `content` attribute it returns the first `dc:title` content as
title and all `dc:creator` contents, in document order, joined with `", "`
as authors; a `dc:creator` meta without a `content` attribute instead
crashes with an uncaught `TypeError` inside `', '.join`. (Parsing itself
never fails: `html.parser` accepts arbitrary input.) -/
theorem claim_C5_metadata (ncc : List MetaTag) :
    ((∃ msg, create_metadata_object_from_ncc ncc = NccResult.metaErr msg) ↔
      (ncc_title ncc = none ∨ ncc_title ncc = some "" ∨ ncc_creators ncc = [])) ∧
    (create_metadata_object_from_ncc ncc = NccResult.typeError ↔
      (ncc_title ncc ≠ none ∧ ncc_title ncc ≠ some "" ∧ none ∈ ncc_creators ncc)) ∧
    (∀ t, ncc_title ncc = some t → t ≠ "" → ncc_creators ncc ≠ [] →
      none ∉ ncc_creators ncc →
      create_metadata_object_from_ncc ncc =
        NccResult.ok (String.intercalate ", " (ncc_creators ncc).reduceOption) t) := by
  have hmemnone : ∀ tags : List MetaTag,
      (none ∈ tags.map (fun m => m.content)) ↔ tags.any (fun m => m.content.isNone) = true := by
    intro tags
    rw [List.mem_map, List.any_eq_true]
    constructor
    · rintro ⟨m, hm, hc⟩
      exact ⟨m, hm, Option.isNone_iff_eq_none.mpr hc⟩
    · rintro ⟨m, hm, hc⟩
      exact ⟨m, hm, Option.isNone_iff_eq_none.mp hc⟩
  have hmapnil : ∀ tags : List MetaTag,
      tags.map (fun m => m.content) = [] ↔ tags = [] := fun tags => List.map_eq_nil_iff
  unfold create_metadata_object_from_ncc ncc_title ncc_creators
  cases hfind : ncc.find? (fun m => m.name == "dc:title") with
  | none => simp
  | some title_tag =>
    cases hcont : title_tag.content with
    | none => simp [hcont]
    | some title =>
      simp only [hcont]
      by_cases htitle : title = ""
      · simp [hcont, htitle]
      · rw [if_neg htitle]
        by_cases hcreators : (ncc.filter (fun m => m.name == "dc:creator")).isEmpty
        · rw [if_pos hcreators]
          have hnil := List.isEmpty_iff.mp hcreators
          simp [htitle, hnil]
        · rw [if_neg hcreators]
          have hne := (hmapnil _).not.mpr (fun e => hcreators (List.isEmpty_iff.mpr e))
          by_cases hany : (ncc.filter (fun m => m.name == "dc:creator")).any
              (fun m => m.content.isNone)
          · rw [if_pos hany]
            have hmem := (hmemnone _).mpr hany
            refine ⟨by simp [hcont, htitle, hne, hmem], ⟨fun _ => ⟨by simp [hcont],
              by simp [hcont, htitle], hmem⟩, fun _ => rfl⟩, ?_⟩
            intro t _ _ _ hnone
            exact absurd hmem hnone
          · rw [if_neg hany]
            have hnomem : none ∉ (ncc.filter (fun m => m.name == "dc:creator")).map
                (fun m => m.content) := fun h => by
              rw [hmemnone] at h
              exact absurd h (by simpa using hany)
            refine ⟨by simp [hcont, hne, hnomem, htitle], ⟨by simp, fun h => absurd h.2.2 hnomem⟩, ?_⟩
            intro t ht _ _ _
            have ht2 : title_tag.content = some t := ht
            rw [hcont, Option.some_inj] at ht2
            subst ht2
            simp [List.reduceOption, List.filterMap_map, Function.comp]

theorem claim_C5_metadata_witness :
    create_metadata_object_from_ncc
        [⟨"dc:title", some "My Book"⟩, ⟨"dc:creator", some "Jane Doe"⟩,
          ⟨"dc:creator", some "John Smith"⟩] =
      NccResult.ok "Jane Doe, John Smith" "My Book" :=
  (claim_C5_metadata
      [⟨"dc:title", some "My Book"⟩, ⟨"dc:creator", some "Jane Doe"⟩,
        ⟨"dc:creator", some "John Smith"⟩]).2.2
    "My Book" (by rfl) (by decide) (by decide) (by decide)

/-! ## SMIL section titles and the broken error handler in `main`

Source (`main`):
```
try:
    section_title = find_document_title(parsed_doc)
except ExtractMetadataError as e:
    exit_with_error('Could not retrieve metadata from SMIL document ({0}): {1}'.format(file, str(e)))
```
No variable named `file` is bound in `main`, so evaluating the format
arguments in the handler raises `NameError` before `exit_with_error` can
run: the error path itself crashes. -/

/-- The function `find_document_title`: first `<meta name="title">` content; absent tag,
absent content or empty content raise `ExtractMetadataError`. -/
def find_document_title (doc : List MetaTag) : Except String String :=
  match doc.find? (fun m => m.name == "title") with
  | none => Except.error "Unable to extract title from SMIL document"
  | some title_tag =>
    match title_tag.content with
    | none => Except.error "SMIL document has no title"
    | some title =>
      if title = "" then Except.error "SMIL document has no title" else Except.ok title

/-- Outcome of the per-document title step of `main`. -/
inductive SectionStep : Type
  | proceed (section_title : String)
  | crashed (exceptionName : String)
deriving DecidableEq, Repr

/-- The try/except in `main` around `find_document_title`: when the call
raises `ExtractMetadataError`, the handler evaluates the unbound name
`file` while building the message, raising `NameError` — an unhandled
crash in place of the intended `exit_with_error` report. -/
def handle_section_title (doc : List MetaTag) : SectionStep :=
  match find_document_title doc with
  | Except.ok t => SectionStep.proceed t
  | Except.error _ => SectionStep.crashed "NameError"

/-- C3 (code bug): not every failing component is surfaced as a single
human-readable message — for a SMIL timing document with no title meta
element, `find_document_title` raises `ExtractMetadataError`, and the
handler in `main` then crashes with `NameError` (it references the unbound
name `file` at `extract.py:75`), so this error path escapes as an unhandled
condition instead of the reported message the spec (and the rest of the
code, which routes every other error through `exit_with_error`) intends. -/
theorem claim_C3_error_path_crashes :
    find_document_title [] = Except.error "Unable to extract title from SMIL document" ∧
    handle_section_title [] = SectionStep.crashed "NameError" :=
  ⟨rfl, rfl⟩

/-! ## The orchestrator's copy loop, track numbering and playlist
(`main`, lines 80–108)

Source:
```
for audio_file in section_audio_files:
    source_audio_files.append((section_title, os.path.join(input_directory, audio_file)))
...
track_number = 1
for section_name, file_path in source_audio_files:
    destination_filename = '{0:02d} - {1}.{2}'.format(track_number,
        make_safe_filename(section_name), os.path.splitext(file_path)[-1][1:].lower())
    ...
    destination_audio_files.append(os.path.split(destination_path)[-1])
    track_number += 1
...
f.write('\n'.join(destination_audio_files))
```
-/

/-- POSIX `os.path.join` for the two-argument calls the code makes. -/
def os_path_join (a b : String) : String :=
  if ['/'].isPrefixOf b.data then b
  else if ['/'].isSuffixOf a.data || a.data.isEmpty then a ++ b
  else a ++ "/" ++ b

/-- Joining the input directory with one audio reference: `os.path.join`
with `None` as second argument raises `TypeError`, modelled as `none`. -/
def join_audio (input_directory : String) : Option String → Option String
  | none => none
  | some f => some (os_path_join input_directory f)

/-- Run an effectful step over a list, stopping at the first crash —
the Python `for` loop over a list where the body may raise. -/
def traverse_opt {α β : Type} (f : α → Option β) : List α → Option (List β)
  | [] => some []
  | a :: l =>
    match f a with
    | none => none
    | some b => (traverse_opt f l).map (fun bs => b :: bs)

/-- The inner loop of `main` for one timing document: pair the section
title with each joined audio path; a `None` audio reference crashes. -/
def collect_section_audio (input_directory section_title : String)
    (srcs : List (Option String)) : Option (List (String × String)) :=
  traverse_opt
    (fun src => (join_audio input_directory src).map (fun p => (section_title, p)))
    (get_audio_filenames_from_smil srcs)

/-- The document loop of `main`: all `(section title, source path)` pairs
across the timing documents, in document order then in-document order;
`none` when any audio element lacks a `src`. -/
def collect_source_audio (input_directory : String)
    (sections : List (String × List (Option String))) :
    Option (List (String × String)) :=
  (traverse_opt (fun sec => collect_section_audio input_directory sec.1 sec.2) sections).map
    List.flatten

/-- Python's `'{0:02d}'.format(n)`: the decimal representation, padded with
leading zeros to a minimum width of two — never truncated. -/
def format02 (n : Nat) : String :=
  if (toString n).length < 2 then
    String.mk (List.replicate (2 - (toString n).length) '0') ++ toString n
  else toString n

/-- The expression `os.path.splitext(file_path)[-1][1:].lower()`: the extension of the
final path component — the text after its last dot, where leading dots of
the component start no extension — lowercased, without the dot. -/
def path_extension (p : String) : String :=
  if ((p.splitOn "/").getLastD "").data.dropWhile (fun c => c == '.') |>.contains '.' then
    String.mk (((((p.splitOn "/").getLastD "").data.dropWhile (fun c => c == '.')).reverse.takeWhile
      (fun c => decide (c ≠ '.'))).reverse.map Char.toLower)
  else ""

/-- The destination filename built for one copied track. -/
def destination_filename (track_number : Nat) (section_name file_path : String) : String :=
  format02 track_number ++ " - " ++ make_safe_filename section_name ++ "." ++
    path_extension file_path

/-- The copy loop of `main`: number the flattened entries starting at 1,
producing each entry's track number and destination filename. -/
def copy_loop (track_number : Nat) : List (String × String) → List (Nat × String)
  | [] => []
  | (section_name, file_path) :: rest =>
    (track_number, destination_filename track_number section_name file_path) ::
      copy_loop (track_number + 1) rest

/-- The flattening of per-section audio lists into `source_audio_files`
(here with the already-joined source paths). -/
def flatten_audio (sections : List (String × List String)) : List (String × String) :=
  sections.flatMap (fun sec => sec.2.map (fun f => (sec.1, f)))

theorem copy_loop_map_fst : ∀ (l : List (String × String)) (n : Nat),
    (copy_loop n l).map Prod.fst = List.range' n l.length := by
  intro l
  induction l with
  | nil => intro n; rfl
  | cons p rest ih =>
    intro n
    cases p with
    | mk section_name file_path =>
      rw [copy_loop, List.length_cons, List.range'_succ]
      simpa using ih (n + 1)

theorem format02_length (n : Nat) : (format02 n).length = max 2 (toString n).length := by
  unfold format02
  by_cases h : (toString n).length < 2
  · rw [if_pos h, String.length_append, String.length_mk, List.length_replicate]
    omega
  · rw [if_neg h]
    omega

/-- C8: track numbers form a contiguous 1-based sequence — the numbers
assigned by the copy loop over the flattened audio entries are exactly
`1, 2, …, k` where `k` counts all audio files — a section contributing no
audio files contributes no entries and so consumes no number, and the
rendered number always has at least two digits and is never truncated
(its width is exactly the width of the decimal representation once that
exceeds two digits, e.g. for track 100). -/
theorem claim_C8_track_numbers (sections : List (String × List String))
    (t : String) (rest : List (String × List String)) (n : Nat) :
    (copy_loop 1 (flatten_audio sections)).map Prod.fst =
      List.range' 1 (flatten_audio sections).length ∧
    flatten_audio ((t, []) :: rest) = flatten_audio rest ∧
    (format02 n).length = max 2 (toString n).length ∧
    format02 1 = "01" ∧ format02 100 = "100" := by
  refine ⟨copy_loop_map_fst _ 1, ?_, format02_length n, rfl, rfl⟩
  unfold flatten_audio
  rw [List.flatMap_cons]
  simp

/-! ## Playlist construction (`main`, lines 101–108) -/

/-- Python `'\n'.join(entries)`: entries separated by single newlines,
nothing before the first entry or after the last. -/
def newline_join : List String → String
  | [] => ""
  | [d] => d
  | d :: rest => d ++ "\n" ++ newline_join rest

/-- The playlist file name: `'{0}.m3u'.format(make_safe_filename(metadata.title))`. -/
def playlist_filename (title : String) : String :=
  make_safe_filename title ++ ".m3u"

/-- The playlist file content written by `main`:
`'\n'.join(destination_audio_files)`. -/
def playlist_content (dests : List String) : String :=
  newline_join dests

theorem newline_join_cons_cons (d e : String) (t : List String) :
    newline_join (d :: e :: t) = d ++ "\n" ++ newline_join (e :: t) := by
  rw [newline_join]
  exact fun h => List.noConfusion h

theorem newline_join_data : ∀ dests : List String,
    (newline_join dests).data = List.intercalate ['\n'] (dests.map String.data) := by
  intro dests
  induction dests using newline_join.induct with
  | case1 => rfl
  | case2 d => simp [newline_join, List.intercalate]
  | case3 d e hne ih =>
    cases e with
    | nil => exact absurd rfl hne
    | cons x t =>
      rw [newline_join_cons_cons, String.data_append, String.data_append, ih]
      simp only [List.map_cons, List.intercalate, List.intersperse_cons_cons,
        List.flatten_cons, List.append_assoc]

theorem newline_join_concat : ∀ (l : List String) (d : String),
    newline_join (l ++ [d]) = (if l = [] then "" else newline_join l ++ "\n") ++ d := by
  intro l
  induction l with
  | nil =>
    intro d
    rw [if_pos rfl, List.nil_append, String.empty_append]
    rfl
  | cons c l ih =>
    intro d
    rw [if_neg (by simp : ¬(c :: l = []))]
    cases l with
    | nil => rfl
    | cons e t =>
      rw [List.cons_append, List.cons_append, newline_join_cons_cons,
        ← List.cons_append, ih d, if_neg (by simp : ¬(e :: t = [])),
        newline_join_cons_cons]
      simp [String.append_assoc]

/-- C9: the playlist is named `sanitize(title) + ".m3u"` and its content is
the bare destination filenames in track order joined by single newlines —
its character data equals the `List.intercalate` of the filenames' data
with a newline separator, and for a non-empty list the content is the
joined prefix entries, one trailing newline each, followed by the last
entry with nothing after it (in particular no trailing newline after the
last entry). -/
theorem claim_C9_playlist (title : String) (dests l : List String) (d : String) :
    playlist_filename title = make_safe_filename title ++ ".m3u" ∧
    (playlist_content dests).data = List.intercalate ['\n'] (dests.map String.data) ∧
    playlist_content (l ++ [d]) = (if l = [] then "" else playlist_content l ++ "\n") ++ d :=
  ⟨rfl, newline_join_data dests, newline_join_concat l d⟩

/-! ## The missing-`src` crash (C10) -/

theorem length_filter_le_one_of_nodup {α : Type} [DecidableEq α] {l : List α}
    (h : l.Nodup) (a : α) : (l.filter (fun x => decide (x = a))).length ≤ 1 := by
  cases hf : l.filter (fun x => decide (x = a)) with
  | nil => simp
  | cons x xs =>
    cases xs with
    | nil => simp
    | cons y ys =>
      exfalso
      have hnd : (l.filter (fun x => decide (x = a))).Nodup := h.filter _
      rw [hf] at hnd
      have hx : x = a := by
        have hm : x ∈ l.filter (fun x => decide (x = a)) := hf ▸ List.mem_cons_self _ _
        simpa using (List.mem_filter.mp hm).2
      have hy : y = a := by
        have hm : y ∈ l.filter (fun x => decide (x = a)) :=
          hf ▸ List.mem_cons_of_mem _ (List.mem_cons_self _ _)
        simpa using (List.mem_filter.mp hm).2
      rcases List.nodup_cons.mp hnd with ⟨hnx, _⟩
      exact hnx (by rw [hx, hy]; exact List.mem_cons_self _ _)

theorem traverse_opt_eq_none {α β : Type} (f : α → Option β) :
    ∀ (l : List α) (a : α), a ∈ l → f a = none → traverse_opt f l = none := by
  intro l
  induction l with
  | nil =>
    intro a ha
    exact absurd ha (List.not_mem_nil a)
  | cons x xs ih =>
    intro a ha hfa
    rcases List.mem_cons.mp ha with h | h
    · subst h
      simp [traverse_opt, hfa]
    · unfold traverse_opt
      cases hfx : f x with
      | none => rfl
      | some b => rw [ih a h hfa]; rfl

/-- C10: an `<audio>` element with no `src` attribute contributes `None` to
the section's deduplicated audio list (and deduplication leaves at most one
such entry), and the orchestrator's `os.path.join(input_directory, None)`
then raises an unhandled `TypeError` — no `InvalidDAISYBookError` or
`ExtractMetadataError` is raised, so nothing reports it — making the whole
collection step crash for any book with such a timing document. -/
theorem claim_C10_none_src_crashes (input_directory : String)
    (sections : List (String × List (Option String))) (srcs : List (Option String)) :
    (none ∈ srcs → none ∈ get_audio_filenames_from_smil srcs) ∧
    ((get_audio_filenames_from_smil srcs).filter (fun x => decide (x = none))).length ≤ 1 ∧
    ((∃ sec ∈ sections, none ∈ sec.2) → collect_source_audio input_directory sections = none) := by
  refine ⟨?_, ?_, ?_⟩
  · intro h
    rw [get_audio_eq_dedup]
    exact (mem_dedup_keep_first srcs none).mpr h
  · rw [get_audio_eq_dedup]
    exact length_filter_le_one_of_nodup (nodup_dedup_keep_first srcs) none
  · rintro ⟨sec, hsec, hnone⟩
    have hsection : collect_section_audio input_directory sec.1 sec.2 = none := by
      unfold collect_section_audio
      refine traverse_opt_eq_none _ _ none ?_ rfl
      rw [get_audio_eq_dedup]
      exact (mem_dedup_keep_first sec.2 none).mpr hnone
    unfold collect_source_audio
    rw [traverse_opt_eq_none _ sections sec hsec hsection]
    rfl

theorem claim_C10_none_src_crashes_witness :
    (none ∈ get_audio_filenames_from_smil [none, none, some "a.mp3"]) ∧
    ((get_audio_filenames_from_smil [none, none, some "a.mp3"]).filter
      (fun x => decide (x = none))).length ≤ 1 ∧
    collect_source_audio "book" [("Section", [none, none, some "a.mp3"])] = none :=
  ⟨(claim_C10_none_src_crashes "book" [("Section", [none, none, some "a.mp3"])]
      [none, none, some "a.mp3"]).1 (by decide),
    (claim_C10_none_src_crashes "book" [("Section", [none, none, some "a.mp3"])]
      [none, none, some "a.mp3"]).2.1,
    (claim_C10_none_src_crashes "book" [("Section", [none, none, some "a.mp3"])]
      [none, none, some "a.mp3"]).2.2
      ⟨("Section", [none, none, some "a.mp3"]), by decide, by decide⟩⟩

end DaisyExtract
